import Mathlib

/-!
Shallow embedding of `src/transaction-utils.ts` (ledger-obsidian).

Amounts are JS numbers in the source; they are modelled as exact rationals
(`ℚ`), with JS `undefined` modelled as `Option.none`.  JS truthiness tests on
an optional number (`if (x.amount)`) are modelled by `jsTruthy`, which is
false exactly for `none` and for `some 0`, as in JavaScript.

The `neverthrow` `Result<void, TxError>` returned by `fillMissingAmount` is
modelled as `Except TxError Transaction`: the source mutates the transaction
in place and returns `ok(null)`, so the model returns the updated transaction
in the `ok` case and the untouched transaction inside the error value.
-/

namespace LedgerSpec

/-- One expense line of a parsed transaction (data model of the parser
collaborator, as used by `transaction-utils.ts`). -/
structure ExpenseLine where
  account : String
  dealiasedAccount : Option String := none
  currency : Option String := none
  amount : Option ℚ := none
deriving DecidableEq

/-- The `value` record of a parsed transaction. -/
structure TransactionValue where
  date : String
  payee : String
  expenselines : List ExpenseLine
deriving DecidableEq

/-- A parsed transaction (the parser wraps its payload in a `value` field). -/
structure Transaction where
  value : TransactionValue
deriving DecidableEq

/-- The error payload built by `fillMissingAmount` (`TxError` from
`./error`, fields taken from the construction site in the source). -/
structure TxError where
  transaction : Transaction
  message : String
deriving DecidableEq

deriving instance DecidableEq for Except

/-- JS truthiness of an optional number: `undefined` and `0` are falsy. -/
def jsTruthy (a : Option ℚ) : Bool :=
  match a with
  | none => false
  | some q => q != 0

/-- The `for` loop of `getTotalAsNum`: sum the amounts of the given lines,
adding a line's amount exactly when `if (lines[i].amount)` is truthy. -/
def sumTruthy (lines : List ExpenseLine) : ℚ :=
  lines.foldl (fun s l => if jsTruthy l.amount then s + l.amount.getD 0 else s) 0

/-- `getTotalAsNum` on a line list.  The source indexes
`lines[lines.length - 1]`, which on an empty list would be a TypeError; every
call site guards against the empty case, and the model returns `0` there. -/
def getTotalAsNumL (lines : List ExpenseLine) : ℚ :=
  match lines.getLast? with
  | none => 0
  | some lst =>
    if jsTruthy lst.amount then -1 * lst.amount.getD 0
    else sumTruthy lines.dropLast

/-- `getTotalAsNum` from the source. -/
def getTotalAsNum (tx : Transaction) : ℚ :=
  getTotalAsNumL tx.value.expenselines

/-- The scanning `for` loop of `fillMissingAmount`: walks the lines
collecting comment-line indices (`commentLines`) and the index of the single
line that is missing an amount (`missingIndex`, `none` for the source's
`-1`), failing as soon as a second missing line is seen. -/
def scanLoop (tx : Transaction) :
    List ExpenseLine → Nat → List Nat → Option Nat →
    Except TxError (List Nat × Option Nat)
  | [], _, commentLines, missingIndex => .ok (commentLines, missingIndex)
  | line :: rest, i, commentLines, missingIndex =>
    if line.amount = none then
      if line.account = "" then
        scanLoop tx rest (i + 1) (commentLines ++ [i]) missingIndex
      else
        match missingIndex with
        | some _ =>
          .error ⟨tx, "Transaction has multiple expense lines without an amount. At most one is allowed."⟩
        | none => scanLoop tx rest (i + 1) commentLines (some i)
    else
      scanLoop tx rest (i + 1) commentLines missingIndex

/-- `lines[missingIndex].amount = v` from the source, as a pure update. -/
def setAmount (lines : List ExpenseLine) (i : Nat) (v : ℚ) : List ExpenseLine :=
  match lines[i]? with
  | some l => lines.set i { l with amount := some v }
  | none => lines

/-- The skip condition of the `reduce` in `fillMissingAmount`'s non-last
branch: `i === missingIndex || i + 1 === lines.length ||
commentLines.includes(i)`. -/
def skipIdx (missingIndex n : Nat) (commentLines : List Nat) (i : Nat) : Bool :=
  i == missingIndex || i + 1 == n || commentLines.contains i

/-- `fillMissingAmount` from the source.  The `ok` case carries the
(possibly updated) transaction; the error case carries the transaction the
source stored in the `TxError`.  In the `reduce` of the non-last branch the
source subtracts the raw `line.amount`; on this code path every non-skipped
line has a present amount (a second absent non-comment amount would have
errored, and comment indices are skipped), so reading it with default `0`
is faithful. -/
def fillMissingAmount (tx : Transaction) : Except TxError Transaction :=
  let lines := tx.value.expenselines
  match scanLoop tx lines 0 [] none with
  | .error e => .error e
  | .ok (_, none) => .ok tx
  | .ok (commentLines, some missingIndex) =>
    let total := getTotalAsNum tx
    if missingIndex + 1 = lines.length then
      .ok { value := { tx.value with
        expenselines := setAmount lines missingIndex (-1 * total) } }
    else
      let newAmt := lines.enum.foldl
        (fun prev il =>
          if skipIdx missingIndex lines.length commentLines il.1 then prev
          else prev - il.2.amount.getD 0)
        total
      .ok { value := { tx.value with
        expenselines := setAmount lines missingIndex newAmt } }

/-- `valueForAccount`'s truthiness-guarded equality test on one line:
`(line.account && line.account === account) ||
 (line.dealiasedAccount && line.dealiasedAccount === account)`. -/
def lineMatches (l : ExpenseLine) (a : String) : Bool :=
  (l.account != "" && l.account == a) ||
    (match l.dealiasedAccount with
     | some d => d != "" && d == a
     | none => false)

/-- The indexed scan of `valueForAccount` over the remaining lines; `all` is
the full line list (needed for the `i + 1 === length` last-line test and the
total).  The source returns the raw `line.amount` for a non-last match,
which is a number whenever the line is resolved; the model reads it with
default `0`. -/
def vfaAux (all : List ExpenseLine) (a : String) :
    List ExpenseLine → Nat → ℚ
  | [], _ => 0
  | l :: rest, i =>
    if lineMatches l a then
      if i + 1 = all.length then -1 * getTotalAsNumL all
      else l.amount.getD 0
    else vfaAux all a rest (i + 1)

/-- `valueForAccount` from the source. -/
def valueForAccount (tx : Transaction) (account : String) : ℚ :=
  vfaAux tx.value.expenselines account tx.value.expenselines 0

/-- A transaction filter. -/
def Filter : Type := Transaction → Bool

/-- `filterByPayeeExact` from the source. -/
def filterByPayeeExact (account : String) : Filter :=
  fun tx => tx.value.payee == account

/-- `filterTransactions` from the source (`lodash.some` over the filter list
is `List.any`). -/
def filterTransactions (txs : List Transaction) (filters : List Filter) :
    List Transaction :=
  if 0 < filters.length then txs.filter (fun tx => filters.any (fun fn => fn tx))
  else txs

/-- JS `String.prototype.indexOf(':')` on the character list of the string:
index of the first colon, `none` for the source's `-1`. -/
def idxOfColon : List Char → Option Nat
  | [] => none
  | c :: rest => if c = ':' then some 0 else (idxOfColon rest).map (· + 1)

/-- `dealiasAccount` from the source.  The JS `Map<string,string>` is
modelled as an association list with exact-key lookup; `substring` on the
ASCII account paths is `take`/`drop` on the character list. -/
def dealiasAccount (account : String) (aliases : List (String × String)) :
    String :=
  match idxOfColon account.data with
  | some i =>
    if 0 < i then
      match aliases.lookup (account.data.take i).asString with
      | some v => v ++ (account.data.drop i).asString
      | none => account
    else
      match aliases.lookup account with
      | some v => v
      | none => account
  | none =>
    match aliases.lookup account with
    | some v => v
    | none => account

/-- JS `String.prototype.split(':')` on the character list: splits into the
(possibly empty) pieces between colons. -/
def splitAux : List Char → List Char → List String
  | [], acc => [acc.reverse.asString]
  | c :: rest, acc =>
    if c = ':' then acc.reverse.asString :: splitAux rest []
    else splitAux rest (c :: acc)

/-- `newValue.split(':')` from the source. -/
def splitOnColon (s : String) : List String := splitAux s.data []

/-- The `Node` interface of the account tree.  `subRows` distinguishes the
JS `undefined` from an empty array, as the source does. -/
inductive Node where
  | mk (id : String) (account : String) (subRows : Option (List Node))
       (expanded : Option Bool)

/-- The `id` field of a `Node`. -/
def Node.id : Node → String
  | .mk i _ _ _ => i

/-- The `account` field of a `Node`. -/
def Node.account : Node → String
  | .mk _ a _ _ => a

/-- The `subRows` field of a `Node`. -/
def Node.subRows : Node → Option (List Node)
  | .mk _ _ s _ => s

/-- The `expanded` field of a `Node`. -/
def Node.expanded : Node → Option Bool
  | .mk _ _ _ e => e

/-- The recursion of `makeAccountTree`, on the colon-split parts of the
inserted path.  The source re-joins the tail with `:` and re-splits it in
the recursive call; as the parts of a split contain no colon, that re-split
yields the tail again, so the recursion is taken directly on the parts
list.  The source's in-place mutation of the found node (or `push` of a new
one) is modelled by `List.set` / appending. -/
def insertParts : List String → Option String → List Node → List Node
  | [], _, nodes => nodes
  | p :: rest, parent, nodes =>
    let fullName := match parent with
      | some par => par ++ ":" ++ p
      | none => p
    match nodes.findIdx? (fun n => n.account == p) with
    | none =>
      if rest.isEmpty then nodes ++ [.mk fullName p none none]
      else nodes ++ [.mk fullName p (some (insertParts rest (some fullName) [])) none]
    | some j =>
      if rest.isEmpty then nodes
      else
        match nodes[j]? with
        | some n =>
          nodes.set j
            (.mk n.id n.account
              (some (insertParts rest (some fullName) (n.subRows.getD []))) n.expanded)
        | none => nodes

/-- `makeAccountTree` from the source, as a pure function returning the
updated sibling list. -/
def makeAccountTree (nodes : List Node) (newValue : String)
    (parent : Option String := none) : List Node :=
  insertParts (splitOnColon newValue) parent nodes

mutual

/-- Modelled from the spec: JS `String.prototype.localeCompare` with locale
`'en'` and `{ numeric: true }` is an external platform builtin; for ASCII
strings it compares maximal digit runs by their integer value and other
characters by code point.  Tokenization of a character list into digit runs
and single characters. -/
def natTokens : List Char → List (Nat ⊕ Char)
  | [] => []
  | c :: rest =>
    if c.isDigit then natTokensNum (c.toNat - 48) rest
    else .inr c :: natTokens rest

/-- Digit-run accumulator for `natTokens`. -/
def natTokensNum (n : Nat) : List Char → List (Nat ⊕ Char)
  | [] => [.inl n]
  | c :: rest =>
    if c.isDigit then natTokensNum (10 * n + (c.toNat - 48)) rest
    else .inl n :: natTokens rest

end

/-- Compare two tokens: numbers numerically (and before other characters),
characters by code point. -/
def cmpTok : Nat ⊕ Char → Nat ⊕ Char → Ordering
  | .inl m, .inl k => compare m k
  | .inr a, .inr b => compare a.toNat b.toNat
  | .inl _, .inr _ => .lt
  | .inr _, .inl _ => .gt

/-- Lexicographic comparison of token lists. -/
def cmpTokList : List (Nat ⊕ Char) → List (Nat ⊕ Char) → Ordering
  | [], [] => .eq
  | [], _ :: _ => .lt
  | _ :: _, [] => .gt
  | t :: ts, u :: us =>
    match cmpTok t u with
    | .eq => cmpTokList ts us
    | o => o

/-- Modelled from the spec: `a.localeCompare(b, 'en', { numeric: true })`,
returning a negative / zero / positive integer. -/
def localeCompareEnNumeric (a b : String) : Int :=
  match cmpTokList (natTokens a.data) (natTokens b.data) with
  | .lt => -1
  | .eq => 0
  | .gt => 1

/-- The comparator handed to `nodes.sort` in `sortAccountTree`, as the
"sorts before or equal" relation of the comparator's sign. -/
def nodeLe (a b : Node) : Prop :=
  localeCompareEnNumeric a.account b.account ≤ 0

instance : DecidableRel nodeLe := fun a b => by
  unfold nodeLe; infer_instance

mutual

/-- Recursively sort the `subRows` of a node (`sortAccountTree`'s
`forEach`).  JS `Array.prototype.sort` is a stable comparison sort; it is
modelled by the stable `List.insertionSort`.  The source sorts a level
before recursing into its children; since the comparator reads only
`account`, which the recursion preserves, sorting after recursing yields
the same tree. -/
def sortNode : Node → Node
  | .mk i a none e => .mk i a none e
  | .mk i a (some rows) e => .mk i a (some ((sortForest rows).insertionSort nodeLe)) e

/-- Elementwise `sortNode` over a sibling list. -/
def sortForest : List Node → List Node
  | [] => []
  | n :: rest => sortNode n :: sortForest rest

end

/-- `sortAccountTree` from the source, as a pure function. -/
def sortAccountTree (nodes : List Node) : List Node :=
  (sortForest nodes).insertionSort nodeLe

section ClaimSideDefinitions

/-- Count of the non-comment lines (non-empty account) whose amount is
absent — the quantity the spec's error condition is stated over. -/
def countMissing (lines : List ExpenseLine) : Nat :=
  (lines.filter (fun l => l.amount.isNone && l.account != "")).length

/-- Sum of the amounts of a line list, an absent amount counting as 0. -/
def sumAmt (lines : List ExpenseLine) : ℚ :=
  (lines.map (fun l => l.amount.getD 0)).sum

/-- The spec's "negate the last line's amount" way of computing the total. -/
def negLastTotal (lines : List ExpenseLine) : ℚ :=
  -((lines.getLast?.bind ExpenseLine.amount).getD 0)

/-- The spec's "sum of the amounts of all lines except the last" way of
computing the total (absent amounts as 0). -/
def sumExceptLast (lines : List ExpenseLine) : ℚ :=
  sumAmt lines.dropLast

/-- The distinct (non-empty) account names touched by a transaction. -/
def touchedAccounts (tx : Transaction) : List String :=
  ((tx.value.expenselines.map ExpenseLine.account).filter (· ≠ "")).dedup

/-- Sum of `valueForAccount` over every distinct account touched. -/
def sumOverTouched (tx : Transaction) : ℚ :=
  ((touchedAccounts tx).map (valueForAccount tx)).sum

/-- `true` exactly on `Except.ok`. -/
def exceptIsOk {ε α : Type} : Except ε α → Bool
  | .ok _ => true
  | .error _ => false

/-- Whether the sibling accounts of a node list are pairwise distinct. -/
def accountsNodupB : List Node → Bool
  | [] => true
  | n :: rest => (!(rest.map Node.account).contains n.account) && accountsNodupB rest

mutual

/-- Whether every node of a forest has duplicate-free descendants
(sibling-account distinctness at every level below the roots). -/
def treeNodupB : List Node → Bool
  | [] => true
  | n :: rest => nodeChildNodupB n && treeNodupB rest

/-- Duplicate-freeness below one node. -/
def nodeChildNodupB : Node → Bool
  | .mk _ _ none _ => true
  | .mk _ _ (some rows) _ => accountsNodupB rows && treeNodupB rows

end

/-- "No duplicate siblings at any level" of a forest. -/
def forestNodupB (nodes : List Node) : Bool :=
  accountsNodupB nodes && treeNodupB nodes

/-- The accounts of the children of the named node of a sibling list. -/
def childAccounts (nodes : List Node) (name : String) : Option (List String) :=
  (nodes.find? (fun n => n.account == name)).map
    (fun n => (n.subRows.getD []).map Node.account)

end ClaimSideDefinitions

section ProofInfrastructure

/-- The indices (from offset `i`) of the comment lines (absent amount and
empty account), in order — the `commentLines` list a successful scan ends
with. -/
def commentIdxs : List ExpenseLine → Nat → List Nat
  | [], _ => []
  | l :: rest, i =>
    if l.amount = none ∧ l.account = "" then i :: commentIdxs rest (i + 1)
    else commentIdxs rest (i + 1)

/-- The index (from offset `i`) of the first non-comment line with an
absent amount — the `missingIndex` a successful scan ends with. -/
def firstMissing : List ExpenseLine → Nat → Option Nat
  | [], _ => none
  | l :: rest, i =>
    if l.amount = none ∧ l.account ≠ "" then some i
    else firstMissing rest (i + 1)

/-- Per-line contribution to the sum of `valueForAccount` over the distinct
touched accounts: the value attributed to the line at index `i`, or `0` for
a comment line. -/
def contribSum (all : List ExpenseLine) : List ExpenseLine → Nat → ℚ
  | [], _ => 0
  | l :: rest, i =>
    (if l.account ≠ "" then
      (if i + 1 = all.length then -1 * getTotalAsNumL all else l.amount.getD 0)
     else 0) + contribSum all rest (i + 1)

end ProofInfrastructure

section ConcreteExamples

/-- A transaction with the given expense lines (date and payee are
irrelevant to the balance engine). -/
def mkTx (lines : List ExpenseLine) : Transaction :=
  ⟨⟨"2024/01/01", "Payee", lines⟩⟩

def lnExp30 : ExpenseLine := ⟨"Exp", none, none, some 30⟩

def lnCashNone : ExpenseLine := ⟨"Cash", none, none, none⟩

def lnCashNeg30 : ExpenseLine := ⟨"Cash", none, none, some (-30)⟩

/-- The spec's own example: `[{account:"Exp",amount:30},{account:"Cash"}]`. -/
def txExpCash : Transaction := mkTx [lnExp30, lnCashNone]

/-- `txExpCash` after the missing last amount is filled. -/
def txExpCashFilled : Transaction := mkTx [lnExp30, lnCashNeg30]

/-- A transaction with one missing middle amount and a last line whose
present amount is `0`. -/
def txZeroLast : Transaction :=
  mkTx [⟨"Expenses:Food", none, none, some 5⟩,
        ⟨"Assets:Bank", none, none, none⟩,
        ⟨"Assets:Cash", none, none, some 0⟩]

/-- `txZeroLast` after `fillMissingAmount` (the middle line receives `0`). -/
def txZeroLastFilled : Transaction :=
  mkTx [⟨"Expenses:Food", none, none, some 5⟩,
        ⟨"Assets:Bank", none, none, some 0⟩,
        ⟨"Assets:Cash", none, none, some 0⟩]

/-- Two lines, the last carrying a present amount of `0`. -/
def txLastZero : Transaction :=
  mkTx [⟨"Expenses:Food", none, none, some 5⟩,
        ⟨"Assets:Cash", none, none, some 0⟩]

/-- All amounts present but not balanced. -/
def txUnbalanced : Transaction :=
  mkTx [⟨"A", none, none, some 5⟩, ⟨"B", none, none, some 3⟩]

/-- All amounts present and balanced. -/
def txBalanced : Transaction :=
  mkTx [⟨"A", none, none, some 5⟩, ⟨"B", none, none, some (-5)⟩]

/-- Two non-comment lines both missing their amount. -/
def txTwoMissing : Transaction :=
  mkTx [⟨"A", none, none, none⟩, ⟨"B", none, none, none⟩]

/-- The error value `fillMissingAmount` produces for `txTwoMissing`. -/
def errTwoMissing : TxError :=
  ⟨txTwoMissing,
   "Transaction has multiple expense lines without an amount. At most one is allowed."⟩

def txAlice : Transaction :=
  ⟨⟨"2024/01/01", "Alice", [⟨"A", none, none, some 1⟩, ⟨"B", none, none, some (-1)⟩]⟩⟩

def txBob : Transaction :=
  ⟨⟨"2024/01/02", "Bob", [⟨"A", none, none, some 2⟩, ⟨"B", none, none, some (-2)⟩]⟩⟩

/-- The account tree built from the spec's three example paths. -/
def exampleTree : List Node :=
  makeAccountTree
    (makeAccountTree (makeAccountTree [] "Expenses:Food:Groceries")
      "Expenses:Food:Restaurants")
    "Assets:Cash"

/-- The example tree after sorting. -/
def exampleTreeSorted : List Node := sortAccountTree exampleTree

end ConcreteExamples

section BasicLemmas

lemma missing_bool_iff (l : ExpenseLine) :
    (l.amount.isNone && l.account != "") = true ↔ (l.amount = none ∧ l.account ≠ "") := by
  simp [Option.isNone_iff_eq_none]

lemma countMissing_nil : countMissing [] = 0 := rfl

lemma countMissing_cons (l : ExpenseLine) (rest : List ExpenseLine) :
    countMissing (l :: rest) =
      (if l.amount = none ∧ l.account ≠ "" then 1 else 0) + countMissing rest := by
  unfold countMissing
  rw [List.filter_cons]
  by_cases h : l.amount = none ∧ l.account ≠ ""
  · rw [if_pos ((missing_bool_iff l).mpr h), if_pos h]
    simp [Nat.add_comm]
  · rw [if_neg (fun hb => h ((missing_bool_iff l).mp hb)), if_neg h]
    simp

lemma countMissing_append (a b : List ExpenseLine) :
    countMissing (a ++ b) = countMissing a + countMissing b := by
  unfold countMissing
  rw [List.filter_append, List.length_append]

lemma exceptIsOk_false_iff {ε α : Type} (x : Except ε α) :
    exceptIsOk x = false ↔ ∃ e, x = .error e := by
  cases x <;> simp [exceptIsOk]

lemma jsTruthy_false_getD (a : Option ℚ) (h : jsTruthy a = false) : a.getD 0 = 0 := by
  cases a with
  | none => rfl
  | some q =>
    simp only [jsTruthy, bne_iff_ne, ne_eq, Bool.not_eq_true, Decidable.not_not] at h
    simpa using h

lemma sumAmt_nil : sumAmt [] = 0 := rfl

lemma sumAmt_cons (l : ExpenseLine) (rest : List ExpenseLine) :
    sumAmt (l :: rest) = l.amount.getD 0 + sumAmt rest := by
  simp [sumAmt]

lemma sumAmt_append (a b : List ExpenseLine) :
    sumAmt (a ++ b) = sumAmt a + sumAmt b := by
  simp [sumAmt]

lemma sumTruthy_go (l : List ExpenseLine) : ∀ init : ℚ,
    l.foldl (fun s li => if jsTruthy li.amount then s + li.amount.getD 0 else s) init =
      init + sumAmt l := by
  induction l with
  | nil => intro init; simp [sumAmt]
  | cons x rest ih =>
    intro init
    by_cases h : jsTruthy x.amount = true
    · simp only [List.foldl_cons, if_pos h, ih, sumAmt_cons]
      ring
    · rw [Bool.not_eq_true] at h
      simp only [List.foldl_cons, h, Bool.false_eq_true, if_false, ih, sumAmt_cons,
        jsTruthy_false_getD x.amount h]
      ring

lemma sumTruthy_eq (l : List ExpenseLine) : sumTruthy l = sumAmt l := by
  have h := sumTruthy_go l 0
  simpa [sumTruthy] using h

lemma getElem?_append_len {α : Type} (f : List α) (m : α) (g : List α) :
    (f ++ m :: g)[f.length]? = some m := by
  induction f with
  | nil => simp
  | cons x f ih => simpa using ih

lemma set_append_len {α : Type} (f : List α) (m x : α) (g : List α) :
    (f ++ m :: g).set f.length x = f ++ x :: g := by
  induction f with
  | nil => simp
  | cons y f ih => simp [ih]

lemma setAmount_append (f : List ExpenseLine) (m : ExpenseLine) (g : List ExpenseLine)
    (v : ℚ) :
    setAmount (f ++ m :: g) f.length v = f ++ ({ m with amount := some v } :: g) := by
  unfold setAmount
  rw [getElem?_append_len]
  exact set_append_len f m _ g

lemma negLastTotal_concat (u : List ExpenseLine) (lst' : ExpenseLine) :
    negLastTotal (u ++ [lst']) = -(lst'.amount.getD 0) := by
  simp [negLastTotal, List.getLast?_concat]

lemma sumExceptLast_concat (u : List ExpenseLine) (lst' : ExpenseLine) :
    sumExceptLast (u ++ [lst']) = sumAmt u := by
  simp [sumExceptLast, List.dropLast_concat]

end BasicLemmas

section ScanLemmas

lemma scanLoop_isOk (tx : Transaction) : ∀ (rest : List ExpenseLine) (i : Nat)
    (cs : List Nat) (mi : Option Nat),
    exceptIsOk (scanLoop tx rest i cs mi) = true ↔
      countMissing rest + (if mi.isSome then 1 else 0) ≤ 1 := by
  intro rest
  induction rest with
  | nil =>
    intro i cs mi
    cases mi <;> simp [scanLoop, exceptIsOk, countMissing_nil]
  | cons l rest ih =>
    intro i cs mi
    rw [countMissing_cons]
    by_cases ha : l.amount = none
    · by_cases hacc : l.account = ""
      · rw [if_neg (by simp [hacc])]
        simp only [scanLoop, if_pos ha, if_pos hacc]
        rw [ih (i + 1) (cs ++ [i]) mi]
        omega
      · rw [if_pos ⟨ha, hacc⟩]
        cases mi with
        | some m =>
          simp only [scanLoop, if_pos ha, if_neg hacc, exceptIsOk, Option.isSome_some]
          simp only [Bool.false_eq_true, false_iff]
          simp only [if_pos trivial]
          omega
        | none =>
          simp only [scanLoop, if_pos ha, if_neg hacc, Option.isSome_none]
          rw [ih (i + 1) cs (some i)]
          simp only [Option.isSome_some, if_pos trivial, Bool.false_eq_true, if_false]
          omega
    · rw [if_neg (by simp [ha])]
      simp only [scanLoop, if_neg ha]
      rw [ih (i + 1) cs mi]
      omega

lemma scanLoop_run (tx : Transaction) : ∀ (rest : List ExpenseLine) (i : Nat)
    (cs : List Nat) (mi : Option Nat),
    countMissing rest + (if mi.isSome then 1 else 0) ≤ 1 →
    scanLoop tx rest i cs mi =
      .ok (cs ++ commentIdxs rest i,
           match mi with
           | some m => some m
           | none => firstMissing rest i) := by
  intro rest
  induction rest with
  | nil =>
    intro i cs mi _
    cases mi <;> simp [scanLoop, commentIdxs, firstMissing]
  | cons l rest ih =>
    intro i cs mi hcount
    rw [countMissing_cons] at hcount
    by_cases ha : l.amount = none
    · by_cases hacc : l.account = ""
      · rw [if_neg (by simp [hacc])] at hcount
        simp only [scanLoop, if_pos ha, if_pos hacc]
        rw [ih (i + 1) (cs ++ [i]) mi (by omega)]
        simp [commentIdxs, firstMissing, ha, hacc]
      · rw [if_pos ⟨ha, hacc⟩] at hcount
        cases mi with
        | some m =>
          exfalso
          simp only [Option.isSome_some, if_pos trivial] at hcount
          omega
        | none =>
          have hc2 : countMissing rest +
              (if (some i : Option Nat).isSome then 1 else 0) ≤ 1 := by
            simp only [Option.isSome_none, Bool.false_eq_true, if_false] at hcount
            simp only [Option.isSome_some, if_pos trivial]
            omega
          simp only [scanLoop, if_pos ha, if_neg hacc]
          rw [ih (i + 1) cs (some i) hc2]
          simp [commentIdxs, firstMissing, ha, hacc]
    · rw [if_neg (by simp [ha])] at hcount
      simp only [scanLoop, if_neg ha]
      rw [ih (i + 1) cs mi (by omega)]
      simp [commentIdxs, firstMissing, ha]

end ScanLemmas

section EnumFoldLemmas

lemma countMissing_eq_zero_iff (f : List ExpenseLine) :
    countMissing f = 0 ↔ ∀ l ∈ f, l.account ≠ "" → l.amount ≠ none := by
  unfold countMissing
  rw [List.length_eq_zero, List.filter_eq_nil_iff]
  constructor
  · intro h l hl hacc hnone
    exact h l hl ((missing_bool_iff l).mpr ⟨hnone, hacc⟩)
  · intro h l hl hb
    obtain ⟨hnone, hacc⟩ := (missing_bool_iff l).mp hb
    exact h l hl hacc hnone

lemma foldl_sub_eq (f : Nat → Bool) : ∀ (l : List (Nat × ExpenseLine)) (init : ℚ),
    l.foldl (fun prev il => if f il.1 then prev else prev - il.2.amount.getD 0) init =
      init - ((l.filter (fun il => !f il.1)).map (fun il => il.2.amount.getD 0)).sum := by
  intro l
  induction l with
  | nil => intro init; simp
  | cons p rest ih =>
    intro init
    by_cases h : f p.1 = true
    · simp [List.foldl_cons, h, ih]
    · rw [Bool.not_eq_true] at h
      simp [List.foldl_cons, h, ih]
      ring

lemma filterSum_congr (f g : Nat → Bool) : ∀ (l : List (Nat × ExpenseLine)),
    (∀ il ∈ l, f il.1 = g il.1 ∨ il.2.amount.getD 0 = 0) →
    ((l.filter (fun il => !f il.1)).map (fun il => il.2.amount.getD 0)).sum =
      ((l.filter (fun il => !g il.1)).map (fun il => il.2.amount.getD 0)).sum := by
  intro l
  induction l with
  | nil => intro _; simp
  | cons p rest ih =>
    intro h
    have hrest := ih (fun il hil => h il (List.mem_cons_of_mem p hil))
    rcases h p (List.mem_cons_self p rest) with heq | hzero
    · by_cases hg : g p.1 = true
      · simp [List.filter_cons, heq, hg, hrest]
      · rw [Bool.not_eq_true] at hg
        simp [List.filter_cons, heq, hg, hrest]
    · simp only [List.filter_cons]
      by_cases hf : f p.1 = true <;> by_cases hg : g p.1 = true <;>
        simp [hf, hg, hrest, hzero]

lemma mem_enumFrom_bounds {α : Type} : ∀ (l : List α) (s : Nat) (p : Nat × α),
    p ∈ l.enumFrom s → s ≤ p.1 ∧ p.1 < s + l.length := by
  intro l
  induction l with
  | nil => intro s p h; simp [List.enumFrom] at h
  | cons x rest ih =>
    intro s p h
    rw [List.enumFrom_cons] at h
    rcases List.mem_cons.mp h with rfl | h
    · simp
    · have := ih (s + 1) p h
      constructor <;> [omega; (simp only [List.length_cons]; omega)]

lemma filter_enumFrom_all {α : Type} (g : Nat → Bool) (l : List α) (s : Nat)
    (h : ∀ j, s ≤ j → j < s + l.length → g j = true) :
    (l.enumFrom s).filter (fun il => g il.1) = l.enumFrom s := by
  rw [List.filter_eq_self]
  intro p hp
  have hb := mem_enumFrom_bounds l s p hp
  exact h p.1 hb.1 hb.2

lemma sum_amt_enumFrom : ∀ (l : List ExpenseLine) (s : Nat),
    ((l.enumFrom s).map (fun il => il.2.amount.getD 0)).sum = sumAmt l := by
  intro l
  induction l with
  | nil => intro s; simp [sumAmt]
  | cons x rest ih =>
    intro s
    rw [List.enumFrom_cons, List.map_cons, List.sum_cons, ih (s + 1), sumAmt_cons]

lemma commentIdxs_lb : ∀ (l : List ExpenseLine) (s j : Nat),
    j ∈ commentIdxs l s → s ≤ j := by
  intro l
  induction l with
  | nil => intro s j h; simp [commentIdxs] at h
  | cons x rest ih =>
    intro s j h
    unfold commentIdxs at h
    by_cases hx : x.amount = none ∧ x.account = ""
    · rw [if_pos hx] at h
      rcases List.mem_cons.mp h with rfl | h
      · exact Nat.le_refl j
      · have := ih (s + 1) j h; omega
    · rw [if_neg hx] at h
      have := ih (s + 1) j h; omega

lemma commentIdxs_amount : ∀ (l : List ExpenseLine) (s : Nat) (p : Nat × ExpenseLine),
    p ∈ l.enumFrom s → p.1 ∈ commentIdxs l s → p.2.amount = none := by
  intro l
  induction l with
  | nil => intro s p h; simp [List.enumFrom] at h
  | cons x rest ih =>
    intro s p hmem hc
    rw [List.enumFrom_cons] at hmem
    unfold commentIdxs at hc
    rcases List.mem_cons.mp hmem with rfl | hmem
    · by_cases hx : x.amount = none ∧ x.account = ""
      · exact hx.1
      · rw [if_neg hx] at hc
        have := commentIdxs_lb rest (s + 1) s hc
        omega
    · have hb := mem_enumFrom_bounds rest (s + 1) p hmem
      by_cases hx : x.amount = none ∧ x.account = ""
      · rw [if_pos hx] at hc
        rcases List.mem_cons.mp hc with h1 | hc
        · omega
        · exact ih (s + 1) p hmem hc
      · rw [if_neg hx] at hc
        exact ih (s + 1) p hmem hc

lemma firstMissing_append_no (f : List ExpenseLine) :
    ∀ (rest : List ExpenseLine) (i : Nat), countMissing f = 0 →
    firstMissing (f ++ rest) i = firstMissing rest (i + f.length) := by
  induction f with
  | nil => intro rest i _; simp [firstMissing]
  | cons l f ih =>
    intro rest i h
    rw [countMissing_cons] at h
    have hl : ¬(l.amount = none ∧ l.account ≠ "") := by
      by_contra hc
      rw [if_pos hc] at h
      omega
    have hf : countMissing f = 0 := by
      rw [if_neg hl] at h
      omega
    simp only [List.cons_append, firstMissing, if_neg hl, List.length_cons,
      List.append_eq]
    rw [ih rest (i + 1) hf]
    have he : i + 1 + f.length = i + (f.length + 1) := by omega
    rw [he]

end EnumFoldLemmas

section FillRunLemmas

lemma getTotal_last_absent (tx : Transaction) (f : List ExpenseLine)
    (lst : ExpenseLine) (hsplit : tx.value.expenselines = f ++ [lst])
    (hm : lst.amount = none) :
    getTotalAsNum tx = sumAmt f := by
  unfold getTotalAsNum getTotalAsNumL
  rw [hsplit, List.getLast?_concat]
  dsimp only
  rw [hm]
  simp only [jsTruthy, Bool.false_eq_true, if_false, List.dropLast_concat,
    sumTruthy_eq]

/-- Behaviour of `fillMissingAmount` when the single missing non-comment
line is the last line. -/
lemma fill_run_last (tx : Transaction) (f : List ExpenseLine) (lst : ExpenseLine)
    (hsplit : tx.value.expenselines = f ++ [lst])
    (hm : lst.amount = none) (hma : lst.account ≠ "")
    (hf : countMissing f = 0) :
    fillMissingAmount tx =
      .ok ⟨{ tx.value with
        expenselines := f ++ [{ lst with amount := some (-1 * sumAmt f) }] }⟩ := by
  have hcm : countMissing tx.value.expenselines = 1 := by
    rw [hsplit, countMissing_append, countMissing_cons, countMissing_nil,
      if_pos ⟨hm, hma⟩, hf]
  have hfm : firstMissing tx.value.expenselines 0 = some f.length := by
    rw [hsplit, firstMissing_append_no f [lst] 0 hf]
    simp [firstMissing, hm, hma]
  have hscan := scanLoop_run tx tx.value.expenselines 0 [] none (by simp [hcm])
  rw [hfm] at hscan
  have hlen : tx.value.expenselines.length = f.length + 1 := by
    rw [hsplit]; simp
  have htot := getTotal_last_absent tx f lst hsplit hm
  simp only [fillMissingAmount]
  rw [hscan]
  dsimp only
  rw [if_pos (show f.length + 1 = tx.value.expenselines.length from by omega)]
  rw [hsplit, setAmount_append f lst [] (-1 * getTotalAsNum tx), htot]

/-- Behaviour of `fillMissingAmount` when the single missing non-comment
line is followed by at least one more line. -/
lemma fill_run_mid (tx : Transaction) (f g : List ExpenseLine) (m lst : ExpenseLine)
    (hsplit : tx.value.expenselines = f ++ m :: (g ++ [lst]))
    (hm : m.amount = none) (hma : m.account ≠ "")
    (hf : countMissing f = 0) (hg : countMissing g = 0)
    (hlst : ¬(lst.amount = none ∧ lst.account ≠ "")) :
    fillMissingAmount tx =
      .ok ⟨{ tx.value with expenselines :=
        f ++ { m with amount := some (getTotalAsNum tx - (sumAmt f + sumAmt g)) }
          :: (g ++ [lst]) }⟩ := by
  have hcm : countMissing tx.value.expenselines = 1 := by
    rw [hsplit, countMissing_append, countMissing_cons, countMissing_append,
      countMissing_cons, countMissing_nil, if_pos ⟨hm, hma⟩, if_neg hlst, hf, hg]
  have hfm : firstMissing tx.value.expenselines 0 = some f.length := by
    rw [hsplit, firstMissing_append_no f _ 0 hf]
    simp [firstMissing, hm, hma]
  have hscan := scanLoop_run tx tx.value.expenselines 0 [] none (by simp [hcm])
  rw [hfm] at hscan
  have hlen : tx.value.expenselines.length = f.length + g.length + 2 := by
    rw [hsplit]; simp; omega
  simp only [fillMissingAmount]
  rw [hscan]
  dsimp only
  rw [if_neg (by omega : ¬(f.length + 1 = tx.value.expenselines.length))]
  have hfold : tx.value.expenselines.enum.foldl
      (fun prev il =>
        if skipIdx f.length tx.value.expenselines.length
            (List.nil ++ commentIdxs tx.value.expenselines 0) il.1 then prev
        else prev - il.2.amount.getD 0)
      (getTotalAsNum tx) = getTotalAsNum tx - (sumAmt f + sumAmt g) := by
    rw [foldl_sub_eq]
    congr 1
    -- replace the skip condition by the comment-free one
    have hcongr := filterSum_congr
      (skipIdx f.length tx.value.expenselines.length
        (List.nil ++ commentIdxs tx.value.expenselines 0))
      (fun i => i == f.length || i + 1 == tx.value.expenselines.length)
      tx.value.expenselines.enum
      (by
        intro il hil
        by_cases hcs : (commentIdxs tx.value.expenselines 0).contains il.1 = true
        · right
          have hmem : il.1 ∈ commentIdxs tx.value.expenselines 0 :=
            List.elem_iff.mp hcs
          have := commentIdxs_amount tx.value.expenselines 0 il hil hmem
          rw [this]; rfl
        · left
          rw [Bool.not_eq_true] at hcs
          simp only [skipIdx, List.nil_append, hcs, Bool.or_false])
    rw [hcongr]
    -- now compute the comment-free filtered sum over the enum segments
    have henum : tx.value.expenselines.enum =
        List.enumFrom 0 f ++ ((f.length, m) ::
          (List.enumFrom (f.length + 1) g ++ [(f.length + 1 + g.length, lst)])) := by
      show List.enumFrom 0 tx.value.expenselines = _
      rw [hsplit, List.enumFrom_append, List.enumFrom_cons, List.enumFrom_append,
        List.enumFrom_cons]
      simp
    rw [henum]
    rw [List.filter_append, List.filter_cons, List.filter_append, List.filter_cons]
    have hp1 : (List.enumFrom 0 f).filter
        (fun il => !(il.1 == f.length || il.1 + 1 == tx.value.expenselines.length)) =
        List.enumFrom 0 f := by
      refine filter_enumFrom_all
        (fun j => !(j == f.length || j + 1 == tx.value.expenselines.length)) f 0 ?_
      intro j _ hj2
      simp only [Nat.zero_add] at hj2
      have h1 : (j == f.length) = false := beq_false_of_ne (by omega)
      have h2 : (j + 1 == tx.value.expenselines.length) = false :=
        beq_false_of_ne (by omega)
      dsimp only
      rw [h1, h2]; rfl
    have hp2 : (!(f.length == f.length ||
        f.length + 1 == tx.value.expenselines.length)) = false := by
      simp
    have hp3 : (List.enumFrom (f.length + 1) g).filter
        (fun il => !(il.1 == f.length || il.1 + 1 == tx.value.expenselines.length)) =
        List.enumFrom (f.length + 1) g := by
      refine filter_enumFrom_all
        (fun j => !(j == f.length || j + 1 == tx.value.expenselines.length))
        g (f.length + 1) ?_
      intro j hj1 hj2
      have h1 : (j == f.length) = false := beq_false_of_ne (by omega)
      have h2 : (j + 1 == tx.value.expenselines.length) = false :=
        beq_false_of_ne (by omega)
      dsimp only
      rw [h1, h2]; rfl
    have hp4 : (!(f.length + 1 + g.length == f.length ||
        f.length + 1 + g.length + 1 == tx.value.expenselines.length)) = false := by
      have h2 : (f.length + 1 + g.length + 1 == tx.value.expenselines.length) = true := by
        rw [Nat.beq_eq_true_eq]; omega
      rw [h2, Bool.or_true]; rfl
    rw [hp1, hp2, hp3]
    simp only [Bool.false_eq_true, if_false, List.filter_cons, hp4, List.filter_nil]
    rw [List.map_append, List.sum_append, sum_amt_enumFrom, List.append_nil,
      sum_amt_enumFrom]
  rw [hfold, hsplit, setAmount_append f m (g ++ [lst]) _]

end FillRunLemmas

section ErrorPathLemmas

lemma scanLoop_error_tx (tx : Transaction) : ∀ (rest : List ExpenseLine) (i : Nat)
    (cs : List Nat) (mi : Option Nat) (e : TxError),
    scanLoop tx rest i cs mi = .error e → e.transaction = tx := by
  intro rest
  induction rest with
  | nil => intro i cs mi e h; simp [scanLoop] at h
  | cons l rest ih =>
    intro i cs mi e h
    unfold scanLoop at h
    by_cases ha : l.amount = none
    · rw [if_pos ha] at h
      by_cases hacc : l.account = ""
      · rw [if_pos hacc] at h
        exact ih (i + 1) (cs ++ [i]) mi e h
      · rw [if_neg hacc] at h
        cases mi with
        | some m =>
          injection h with h'
          rw [← h']
        | none => exact ih (i + 1) cs (some i) e h
    · rw [if_neg ha] at h
      exact ih (i + 1) cs mi e h

lemma fill_eval_txExpCash : fillMissingAmount txExpCash = .ok txExpCashFilled := by
  have h := fill_run_last txExpCash [lnExp30] lnCashNone rfl rfl
    (by decide) (by decide)
  rw [h]
  norm_num [sumAmt, txExpCash, txExpCashFilled, mkTx, lnExp30, lnCashNone, lnCashNeg30]

end ErrorPathLemmas

section StringLemmas

lemma idxOfColon_none (cs : List Char) (h : ':' ∉ cs) : idxOfColon cs = none := by
  induction cs with
  | nil => rfl
  | cons c rest ih =>
    have hc : ¬(c = ':') := fun he => h (he ▸ List.mem_cons_self c rest)
    have hr : ':' ∉ rest := fun hm => h (List.mem_cons_of_mem c hm)
    simp [idxOfColon, hc, ih hr]

lemma idxOfColon_append_colon (p : List Char) (rest : List Char) (h : ':' ∉ p) :
    idxOfColon (p ++ ':' :: rest) = some p.length := by
  induction p with
  | nil => simp [idxOfColon]
  | cons c cp ih =>
    have hc : ¬(c = ':') := fun he => h (he ▸ List.mem_cons_self c cp)
    have hp : ':' ∉ cp := fun hm => h (List.mem_cons_of_mem c hm)
    simp [idxOfColon, hc, ih hp]

lemma data_append3 (p r : String) :
    (p ++ ":" ++ r).data = p.data ++ ':' :: r.data := by
  rw [String.data_append, String.data_append]
  simp [String.data]

lemma asString_data (s : String) : s.data.asString = s := by
  cases s
  rfl

lemma colon_cons_asString (r : String) : (':' :: r.data).asString = ":" ++ r := by
  cases r
  rfl

lemma data_ne_nil_of_ne_empty (p : String) (h : p ≠ "") : p.data ≠ [] := by
  intro hd
  apply h
  cases p with
  | mk d => cases hd; rfl

end StringLemmas

section ValueForAccountLemmas

lemma vfaAux_skip (all : List ExpenseLine) (a : String) :
    ∀ (pre rest : List ExpenseLine) (i : Nat),
    (∀ l ∈ pre, lineMatches l a = false) →
    vfaAux all a (pre ++ rest) i = vfaAux all a rest (i + pre.length) := by
  intro pre
  induction pre with
  | nil => intro rest i _; simp [vfaAux]
  | cons l' pre ih =>
    intro rest i h
    have hl' : lineMatches l' a = false := h l' (List.mem_cons_self l' pre)
    have hrest : ∀ l ∈ pre, lineMatches l a = false :=
      fun l hl => h l (List.mem_cons_of_mem l' hl)
    simp only [List.cons_append, vfaAux, hl', Bool.false_eq_true, if_false,
      List.append_eq]
    rw [ih rest (i + 1) hrest, List.length_cons]
    have he : i + 1 + pre.length = i + (pre.length + 1) := by omega
    rw [he]

lemma contribSum_cons (all : List ExpenseLine) (l : ExpenseLine)
    (rest : List ExpenseLine) (i : Nat) :
    contribSum all (l :: rest) i =
      (if l.account ≠ "" then
        (if i + 1 = all.length then -1 * getTotalAsNumL all else l.amount.getD 0)
       else 0) + contribSum all rest (i + 1) := rfl

lemma sum_vfa_suffix (all : List ExpenseLine)
    (hdeal : ∀ l ∈ all, l.dealiasedAccount = none) :
    ∀ (suf pre : List ExpenseLine), all = pre ++ suf →
    ((suf.map ExpenseLine.account).filter (· ≠ "")).Nodup →
    (∀ l2 ∈ suf, l2.account ≠ "" → ∀ l' ∈ pre, l'.account ≠ l2.account) →
    (((suf.map ExpenseLine.account).filter (· ≠ "")).map
      (fun a => vfaAux all a all 0)).sum = contribSum all suf pre.length := by
  intro suf
  induction suf with
  | nil => intro pre _ _ _; simp [contribSum]
  | cons l suf ih =>
    intro pre hsplit hnd hpre
    have hsplit' : all = (pre ++ [l]) ++ suf := by
      rw [hsplit, List.append_assoc, List.singleton_append]
    have hlen' : (pre ++ [l]).length = pre.length + 1 := by simp
    by_cases hacc : l.account = ""
    · have hb : ¬(decide (l.account ≠ "")) = true := by simp [hacc]
      rw [List.map_cons, @List.filter_cons_of_neg _ (fun x => decide (x ≠ ""))
        l.account (List.map ExpenseLine.account suf) hb]
      have hnd' : ((suf.map ExpenseLine.account).filter (· ≠ "")).Nodup := by
        rw [List.map_cons, @List.filter_cons_of_neg _ (fun x => decide (x ≠ ""))
          l.account (List.map ExpenseLine.account suf) hb] at hnd
        exact hnd
      have hpre' : ∀ l2 ∈ suf, l2.account ≠ "" →
          ∀ l' ∈ pre ++ [l], l'.account ≠ l2.account := by
        intro l2 hl2 hne l' hl'
        rcases List.mem_append.mp hl' with hl' | hl'
        · exact hpre l2 (List.mem_cons_of_mem l hl2) hne l' hl'
        · rcases List.mem_singleton.mp hl' with rfl
          rw [hacc]
          exact fun he => hne he.symm
      rw [ih (pre ++ [l]) hsplit' hnd' hpre', hlen']
      rw [contribSum_cons, if_neg (fun hc => hc hacc), zero_add]
    · have hb : (decide (l.account ≠ "")) = true := by simp [hacc]
      rw [List.map_cons, @List.filter_cons_of_pos _ (fun x => decide (x ≠ ""))
        l.account (List.map ExpenseLine.account suf) hb, List.map_cons, List.sum_cons]
      have hLmem : ∀ l' ∈ pre, lineMatches l' l.account = false := by
        intro l' hl'
        have hd : l'.dealiasedAccount = none :=
          hdeal l' (hsplit ▸ List.mem_append_left _ hl')
        have hne : l'.account ≠ l.account :=
          hpre l (List.mem_cons_self l suf) hacc l' hl'
        simp [lineMatches, hd, beq_false_of_ne hne]
      have hskip := vfaAux_skip all l.account pre (l :: suf) 0 hLmem
      rw [← hsplit, Nat.zero_add] at hskip
      have hmatch : lineMatches l l.account = true := by
        simp [lineMatches, hacc]
      have hhead : vfaAux all l.account (l :: suf) pre.length =
          (if pre.length + 1 = all.length then -1 * getTotalAsNumL all
           else l.amount.getD 0) := by
        unfold vfaAux
        rw [if_pos hmatch]
      rw [List.map_cons, @List.filter_cons_of_pos _ (fun x => decide (x ≠ ""))
        l.account (List.map ExpenseLine.account suf) hb] at hnd
      have hnotmem : l.account ∉ (suf.map ExpenseLine.account).filter (· ≠ "") :=
        (List.nodup_cons.mp hnd).1
      have hnd' : ((suf.map ExpenseLine.account).filter (· ≠ "")).Nodup :=
        (List.nodup_cons.mp hnd).2
      have hpre' : ∀ l2 ∈ suf, l2.account ≠ "" →
          ∀ l' ∈ pre ++ [l], l'.account ≠ l2.account := by
        intro l2 hl2 hne l' hl'
        rcases List.mem_append.mp hl' with hl' | hl'
        · exact hpre l2 (List.mem_cons_of_mem l hl2) hne l' hl'
        · rcases List.mem_singleton.mp hl' with rfl
          intro he
          apply hnotmem
          rw [he]
          rw [List.mem_filter]
          refine ⟨List.mem_map.mpr ⟨l2, hl2, rfl⟩, by simpa using hne⟩
      rw [contribSum_cons, if_pos hacc]
      rw [ih (pre ++ [l]) hsplit' hnd' hpre', hlen']
      rw [hskip, hhead]

lemma contribSum_concat (all : List ExpenseLine) :
    ∀ (u : List ExpenseLine) (lst : ExpenseLine) (i : Nat),
    i + u.length + 1 = all.length →
    (∀ l ∈ u, l.account = "" → l.amount = none) →
    contribSum all (u ++ [lst]) i =
      sumAmt u + (if lst.account ≠ "" then -1 * getTotalAsNumL all else 0) := by
  intro u
  induction u with
  | nil =>
    intro lst i hlen _
    simp only [List.length_nil, Nat.add_zero] at hlen
    rw [List.nil_append, contribSum_cons, sumAmt_nil]
    rw [if_pos hlen]
    rw [show contribSum all [] (i + 1) = 0 from rfl]
    ring
  | cons x u ih =>
    intro lst i hlen hcom
    simp only [List.length_cons] at hlen
    rw [List.cons_append, contribSum_cons]
    rw [if_neg (by omega : ¬(i + 1 = all.length))]
    rw [ih lst (i + 1) (by omega)
      (fun l hl => hcom l (List.mem_cons_of_mem x hl))]
    have hx : (if x.account ≠ "" then x.amount.getD 0 else 0) = x.amount.getD 0 := by
      by_cases h : x.account = ""
      · rw [if_neg (fun hc => hc h), hcom x (List.mem_cons_self x u) h]
        rfl
      · rw [if_pos h]
    rw [hx, sumAmt_cons]
    ring

end ValueForAccountLemmas

section Claims

/-- Claim C2: `fillMissingAmount` returns a `BalanceError` if and only if more
than one non-comment line (non-empty account) has an absent amount; with
zero or exactly one such missing line it always succeeds, and comment lines
(empty account, absent amount) are never counted as missing (they are
excluded by `countMissing`). -/
theorem fillMissingAmount_error_iff (tx : Transaction) :
    (∃ e, fillMissingAmount tx = .error e) ↔
      2 ≤ countMissing tx.value.expenselines := by
  rw [← exceptIsOk_false_iff]
  have h1 : exceptIsOk (fillMissingAmount tx) =
      exceptIsOk (scanLoop tx tx.value.expenselines 0 [] none) := by
    simp only [fillMissingAmount]
    cases hscan : scanLoop tx tx.value.expenselines 0 [] none with
    | error e => rfl
    | ok p =>
      rcases p with ⟨cs, mi⟩
      cases mi with
      | none => rfl
      | some k =>
        dsimp only
        split <;> rfl
  rw [h1]
  have h2 := scanLoop_isOk tx tx.value.expenselines 0 [] none
  simp only [Option.isSome_none, Bool.false_eq_true, if_false, Nat.add_zero] at h2
  constructor
  · intro hfalse
    by_contra hc
    have hok : exceptIsOk (scanLoop tx tx.value.expenselines 0 [] none) = true :=
      h2.mpr (by omega)
    rw [hok] at hfalse
    cases hfalse
  · intro hge
    cases hb : exceptIsOk (scanLoop tx tx.value.expenselines 0 [] none) with
    | false => rfl
    | true => exact absurd (h2.mp hb) (by omega)

/-- Claim C9: when `fillMissingAmount` fails with the multiple-missing
`BalanceError`, the transaction is left completely unchanged — the
detection scan runs before any write, so the transaction carried by the
error is the untouched input. -/
theorem fillMissingAmount_error_atomic (tx : Transaction) (e : TxError)
    (h : fillMissingAmount tx = .error e) : e.transaction = tx := by
  revert h
  simp only [fillMissingAmount]
  cases hscan : scanLoop tx tx.value.expenselines 0 [] none with
  | error e' =>
    intro h
    injection h with h'
    rw [← h']
    exact scanLoop_error_tx tx tx.value.expenselines 0 [] none e' hscan
  | ok p =>
    rcases p with ⟨cs, mi⟩
    cases mi with
    | none => intro h; cases h
    | some k =>
      dsimp only
      split <;> (intro h; cases h)

/-- Claim C9 witness: on a transaction with two missing amounts the error carries
the unchanged transaction. -/
theorem fillMissingAmount_error_atomic_witness :
    errTwoMissing.transaction = txTwoMissing :=
  fillMissingAmount_error_atomic txTwoMissing errTwoMissing (by decide)

/-- Claim C5: for a transaction whose only missing non-comment amount is on the
last expense line, `fillMissingAmount` sets that line's amount to `-1`
times the sum of the other lines' amounts (absent amounts counting as 0),
leaving all other lines unchanged. -/
theorem fillMissingAmount_last_missing (tx : Transaction) (f : List ExpenseLine)
    (lst : ExpenseLine) (hsplit : tx.value.expenselines = f ++ [lst])
    (hm : lst.amount = none) (hma : lst.account ≠ "")
    (hf : ∀ l ∈ f, l.account ≠ "" → l.amount ≠ none) :
    fillMissingAmount tx =
      .ok ⟨{ tx.value with
        expenselines := f ++ [{ lst with amount := some (-1 * sumAmt f) }] }⟩ :=
  fill_run_last tx f lst hsplit hm hma ((countMissing_eq_zero_iff f).mpr hf)

/-- Claim C5 witness: the spec's own example — for lines
`[{account:"Exp",amount:30},{account:"Cash"}]` the amount of `Cash` is set
to `-30`. -/
theorem fillMissingAmount_last_missing_witness :
    fillMissingAmount txExpCash = .ok txExpCashFilled := by
  have h := fillMissingAmount_last_missing txExpCash [lnExp30] lnCashNone rfl rfl
    (by decide) (by decide)
  rw [h]
  norm_num [sumAmt, txExpCash, txExpCashFilled, mkTx, lnExp30, lnCashNone, lnCashNeg30]

/-- Claim C3 (code bug): the claim says that when the last expense line has a
known (present) amount `a`, `getTotalAsNum` returns `-a`.  On `txLastZero`
the last line has the present amount `0`, yet `getTotalAsNum` returns `5`
(and not `-0 = 0`): the source's JS truthiness test `if (lines[len-1].amount)`
treats a present `0` like an absent amount and falls through to the
sum-of-non-last branch. -/
theorem getTotalAsNum_present_zero_bug :
    (txLastZero.value.expenselines.getLast?.map ExpenseLine.amount)
        = some (some 0) ∧
    getTotalAsNum txLastZero = 5 ∧
    getTotalAsNum txLastZero ≠ -0 := by
  have h5 : getTotalAsNum txLastZero = 5 := by
    norm_num [getTotalAsNum, getTotalAsNumL, txLastZero, mkTx, sumTruthy, jsTruthy]
  refine ⟨by decide, h5, ?_⟩
  rw [h5]
  norm_num

/-- Claim C1 counterexample: `txZeroLast` has exactly one non-comment line with
an absent amount and `fillMissingAmount` succeeds on it, yet the two ways
of computing the total disagree: negating the last line's amount gives `0`
while the sum of all lines except the last gives `5`.  (The claim, as
stated, is therefore false.) -/
theorem totals_disagree_after_fill :
    countMissing txZeroLast.value.expenselines = 1 ∧
    fillMissingAmount txZeroLast = .ok txZeroLastFilled ∧
    negLastTotal txZeroLastFilled.value.expenselines = 0 ∧
    sumExceptLast txZeroLastFilled.value.expenselines = 5 ∧
    negLastTotal txZeroLastFilled.value.expenselines ≠
      sumExceptLast txZeroLastFilled.value.expenselines := by
  have hfill : fillMissingAmount txZeroLast = .ok txZeroLastFilled := by
    have h := fill_run_mid txZeroLast [⟨"Expenses:Food", none, none, some 5⟩] []
      ⟨"Assets:Bank", none, none, none⟩ ⟨"Assets:Cash", none, none, some 0⟩
      rfl rfl (by decide) (by decide) (by decide) (by decide)
    have hT : getTotalAsNum txZeroLast = 5 := by
      norm_num [getTotalAsNum, getTotalAsNumL, txZeroLast, mkTx, sumTruthy, jsTruthy]
    rw [h, hT]
    norm_num [sumAmt, txZeroLast, txZeroLastFilled, mkTx]
  have hneg : negLastTotal txZeroLastFilled.value.expenselines = 0 := by
    norm_num [negLastTotal, txZeroLastFilled, mkTx, List.getLast?]
  have hsum : sumExceptLast txZeroLastFilled.value.expenselines = 5 := by
    norm_num [sumExceptLast, sumAmt, txZeroLastFilled, mkTx]
  refine ⟨by decide, hfill, hneg, hsum, ?_⟩
  rw [hneg, hsum]
  norm_num

/-- Claim C1 (amended): for a transaction in which exactly one non-comment
expense line has an absent amount and in which, whenever that missing line
is not the last line, the last line carries a present non-zero amount,
after `fillMissingAmount` succeeds the two ways of computing the total
agree: negating the last line's amount equals the sum of the amounts of all
lines except the last. -/
theorem totals_agree_after_fill (tx : Transaction) (f f2 : List ExpenseLine)
    (m : ExpenseLine)
    (hsplit : tx.value.expenselines = f ++ m :: f2)
    (hm : m.amount = none) (hma : m.account ≠ "")
    (hf : ∀ l ∈ f, l.account ≠ "" → l.amount ≠ none)
    (hf2 : ∀ l ∈ f2, l.account ≠ "" → l.amount ≠ none)
    (hlast : f2 = [] ∨ ∃ g lst a, f2 = g ++ [lst] ∧ lst.amount = some a ∧ a ≠ 0) :
    ∀ tx', fillMissingAmount tx = .ok tx' →
      negLastTotal tx'.value.expenselines = sumExceptLast tx'.value.expenselines := by
  intro tx' htx'
  have hf0 : countMissing f = 0 := (countMissing_eq_zero_iff f).mpr hf
  rcases hlast with rfl | ⟨g, lst, a, rfl, hla, hane⟩
  · rw [fill_run_last tx f m hsplit hm hma hf0] at htx'
    injection htx' with h
    subst h
    simp only [negLastTotal, sumExceptLast, List.getLast?_concat, List.dropLast_concat,
      Option.some_bind, Option.getD_some]
    ring
  · have hg0 : countMissing g = 0 :=
      (countMissing_eq_zero_iff g).mpr
        (fun l hl => hf2 l (List.mem_append_left _ hl))
    have hlstnm : ¬(lst.amount = none ∧ lst.account ≠ "") := by
      rw [hla]; simp
    rw [fill_run_mid tx f g m lst hsplit hm hma hf0 hg0 hlstnm] at htx'
    have hT : getTotalAsNum tx = -1 * a := by
      unfold getTotalAsNum getTotalAsNumL
      rw [hsplit]
      have hre : f ++ m :: (g ++ [lst]) = (f ++ m :: g) ++ [lst] := by simp
      rw [hre, List.getLast?_concat]
      dsimp only
      rw [hla]
      simp [jsTruthy, hane]
    set q : ℚ := getTotalAsNum tx - (sumAmt f + sumAmt g) with hq
    injection htx' with h
    subst h
    show negLastTotal (f ++ { m with amount := some q } :: (g ++ [lst])) =
      sumExceptLast (f ++ { m with amount := some q } :: (g ++ [lst]))
    have hre2 : f ++ { m with amount := some q } :: (g ++ [lst]) =
        (f ++ { m with amount := some q } :: g) ++ [lst] := by simp
    rw [hre2, negLastTotal_concat, sumExceptLast_concat, hla, sumAmt_append,
      sumAmt_cons]
    simp only [Option.getD_some]
    rw [hq, hT]
    ring

/-- Claim C4 counterexample: `txUnbalanced` has a present amount on every line
(so it is a resolved transaction satisfying §3's invariant), yet the sum of
`valueForAccount` over its distinct touched accounts is `8`, not `0`: the
value of the last line is `-getTotalAsNum`, which equals the line's own
amount rather than its negation, so an unbalanced resolved transaction
breaks the claimed law.  (The claim, as stated, is therefore false.) -/
theorem valueForAccount_sum_counterexample :
    (∀ l ∈ txUnbalanced.value.expenselines, l.amount ≠ none) ∧
    touchedAccounts txUnbalanced = ["A", "B"] ∧
    sumOverTouched txUnbalanced = 8 ∧
    sumOverTouched txUnbalanced ≠ 0 := by
  have ht : touchedAccounts txUnbalanced = ["A", "B"] := by decide
  have h8 : sumOverTouched txUnbalanced = 8 := by
    unfold sumOverTouched
    rw [ht]
    simp +decide [valueForAccount, vfaAux, lineMatches, getTotalAsNumL, sumTruthy,
      jsTruthy, txUnbalanced, mkTx, List.getLast?]
    norm_num
  refine ⟨by decide, ht, h8, ?_⟩
  rw [h8]
  norm_num

/-- Claim C4 (amended): for every transaction whose lines carry no
`dealiasedAccount`, in which a line has an empty account exactly when its
amount is absent (comment lines hold no amounts, non-comment lines are
resolved), whose non-empty account names are pairwise distinct, and whose
amounts sum to zero (the double-entry balance convention), the sum of
`valueForAccount(tx, a)` over every distinct account name `a` touched by
the transaction equals 0. -/
theorem valueForAccount_balance (tx : Transaction)
    (hdeal : ∀ l ∈ tx.value.expenselines, l.dealiasedAccount = none)
    (hcomm : ∀ l ∈ tx.value.expenselines, (l.account = "" ↔ l.amount = none))
    (hnodup : ((tx.value.expenselines.map ExpenseLine.account).filter (· ≠ "")).Nodup)
    (hbal : sumAmt tx.value.expenselines = 0) :
    sumOverTouched tx = 0 := by
  have hmain := sum_vfa_suffix tx.value.expenselines hdeal tx.value.expenselines []
    rfl hnodup (by intro l2 _ _ l' hl'; cases hl')
  simp only [List.length_nil] at hmain
  have htouch : sumOverTouched tx =
      (((tx.value.expenselines.map ExpenseLine.account).filter (· ≠ "")).map
        (fun a => vfaAux tx.value.expenselines a tx.value.expenselines 0)).sum := by
    unfold sumOverTouched touchedAccounts valueForAccount
    rw [List.dedup_eq_self.mpr hnodup]
  rw [htouch, hmain]
  rcases List.eq_nil_or_concat tx.value.expenselines with hnil | ⟨u, lst, hc0⟩
  · rw [hnil]; rfl
  · have hconcat : tx.value.expenselines = u ++ [lst] := by
      rw [hc0, List.concat_eq_append]
    have hcom' : ∀ l ∈ u, l.account = "" → l.amount = none := by
      intro l hl h
      exact (hcomm l (hconcat ▸ List.mem_append_left _ hl)).mp h
    have hlst : lst ∈ tx.value.expenselines := by
      rw [hconcat]
      exact List.mem_append_right _ (List.mem_singleton_self lst)
    rw [hconcat]
    rw [contribSum_concat (u ++ [lst]) u lst 0 (by simp) hcom']
    have hbal' : sumAmt u + lst.amount.getD 0 = 0 := by
      rw [hconcat, sumAmt_append, sumAmt_cons, sumAmt_nil] at hbal
      linarith [hbal]
    by_cases hacc : lst.account = ""
    · rw [if_neg (fun hc => hc hacc)]
      have hn : lst.amount = none := (hcomm lst hlst).mp hacc
      rw [hn] at hbal'
      simpa using hbal'
    · rw [if_pos hacc]
      have hne : lst.amount ≠ none := fun h => hacc ((hcomm lst hlst).mpr h)
      obtain ⟨a, ha⟩ := Option.ne_none_iff_exists'.mp hne
      rw [ha, Option.getD_some] at hbal'
      have htot : getTotalAsNumL (u ++ [lst]) = -a := by
        unfold getTotalAsNumL
        rw [List.getLast?_concat]
        dsimp only
        rw [ha]
        by_cases haz : a = 0
        · subst haz
          rw [show jsTruthy (some 0) = false from rfl]
          simp only [Bool.false_eq_true, if_false, List.dropLast_concat, sumTruthy_eq]
          linarith [hbal']
        · rw [show jsTruthy (some a) = true from by simp [jsTruthy, haz]]
          simp
      rw [htot]
      linarith [hbal']

/-- Claim C4 witness: the amended statement applied to the concrete balanced
transaction `txBalanced`. -/
theorem valueForAccount_balance_witness : sumOverTouched txBalanced = 0 :=
  valueForAccount_balance txBalanced (by decide) (by decide) (by decide)
    (by norm_num [sumAmt, txBalanced, mkTx])

/-- Claim C6: `filterTransactions` with zero filters is the identity (not the
empty set); with one or more filters it returns exactly the transactions
matched by at least one of the filters, preserving the original relative
order (the result is a sublist of the input). -/
theorem filterTransactions_spec (txs : List Transaction) (fs : List Filter) :
    filterTransactions txs [] = txs ∧
    (filterTransactions txs fs).Sublist txs ∧
    (fs ≠ [] → ∀ tx, tx ∈ filterTransactions txs fs ↔
      tx ∈ txs ∧ ∃ f ∈ fs, f tx = true) := by
  refine ⟨rfl, ?_, ?_⟩
  · unfold filterTransactions
    split
    · exact List.filter_sublist txs
    · exact List.Sublist.refl txs
  · intro hne tx
    have hlen : 0 < fs.length := List.length_pos.mpr hne
    unfold filterTransactions
    rw [if_pos hlen, List.mem_filter, List.any_eq_true]

/-- Claim C6 witness: the theorem instantiated at a concrete transaction list and
a concrete single-filter list. -/
theorem filterTransactions_spec_witness :
    filterTransactions [txAlice, txBob] [] = [txAlice, txBob] ∧
    (filterTransactions [txAlice, txBob] [filterByPayeeExact "Alice"]).Sublist
      [txAlice, txBob] ∧
    (txAlice ∈ filterTransactions [txAlice, txBob] [filterByPayeeExact "Alice"] ↔
      txAlice ∈ [txAlice, txBob] ∧
        ∃ f ∈ [filterByPayeeExact "Alice"], f txAlice = true) := by
  have h := filterTransactions_spec [txAlice, txBob] [filterByPayeeExact "Alice"]
  exact ⟨h.1, h.2.1, h.2.2 (by simp) txAlice⟩

/-- Claim C10: for an account string whose first character is a colon,
`dealiasAccount` never performs prefix replacement: it returns the alias
value for the entire string (leading colon included) when that string is a
key of the alias map, and the account unchanged otherwise. -/
theorem dealiasAccount_leading_colon (s : String) (aliases : List (String × String))
    (h : s.data.head? = some ':') :
    dealiasAccount s aliases =
      (match aliases.lookup s with
       | some v => v
       | none => s) := by
  unfold dealiasAccount
  have hidx : idxOfColon s.data = some 0 := by
    cases hd : s.data with
    | nil => rw [hd] at h; cases h
    | cons c rest =>
      rw [hd] at h
      injection h with h'
      simp [idxOfColon, h']
  rw [hidx]
  dsimp only
  rw [if_neg (lt_irrefl 0)]

/-- Claim C10 witness: the account `":Food"` with an alias map containing the
full string (leading colon included) as a key is replaced wholesale. -/
theorem dealiasAccount_leading_colon_witness :
    dealiasAccount ":Food" [(":Food", "X")] = "X" := by
  have h := dealiasAccount_leading_colon ":Food" [(":Food", "X")] (by decide)
  rw [h]
  decide

/-- Claim C7 counterexample: on the account `":Food"` with alias map
`{":Food" ↦ "X"}` the claim's case analysis demands the name be returned
unchanged (the string contains a colon, and its prefix before the first
colon — the empty string — is not an alias key), but `dealiasAccount`
replaces it wholesale with `"X"` because the source's `firstDelimeter > 0`
test fails for a leading colon and control falls into the whole-name
branch. -/
theorem dealiasAccount_claim_counterexample :
    (':' ∈ ":Food".data) ∧
    List.lookup "" [(":Food", "X")] = none ∧
    dealiasAccount ":Food" [(":Food", "X")] = "X" ∧
    dealiasAccount ":Food" [(":Food", "X")] ≠ ":Food" := by
  exact ⟨by decide, by decide, by decide, by decide⟩

/-- Claim C7 (amended): `dealiasAccount` splits at the first colon; when the
first colon sits at a positive index and the prefix before it is an alias
key, the prefix is replaced and the remainder (colon included) re-appended;
when the string has no colon at a positive index — no colon at all — the
whole name is looked up and replaced wholesale if it is a key; otherwise
(colon at a positive index with an unknown prefix, or no colon and an
unknown name) the account is returned unchanged.  (The original claim also
covered strings whose first colon is at index 0 by the "otherwise
unchanged" clause; those follow the whole-name lookup instead, see the
counterexample.)  In particular the three examples of the spec hold. -/
theorem dealiasAccount_spec :
    dealiasAccount "Exp:Food" [("Exp", "Expenses")] = "Expenses:Food" ∧
    dealiasAccount "Cash" [("Cash", "Assets:Cash")] = "Assets:Cash" ∧
    dealiasAccount "Exp:Food" [] = "Exp:Food" ∧
    (∀ (p r : String) (al : List (String × String)) (v : String),
      ':' ∉ p.data → p ≠ "" → al.lookup p = some v →
      dealiasAccount (p ++ ":" ++ r) al = v ++ ":" ++ r) ∧
    (∀ (p r : String) (al : List (String × String)),
      ':' ∉ p.data → p ≠ "" → al.lookup p = none →
      dealiasAccount (p ++ ":" ++ r) al = p ++ ":" ++ r) ∧
    (∀ (a : String) (al : List (String × String)),
      ':' ∉ a.data →
      dealiasAccount a al =
        (match al.lookup a with
         | some v => v
         | none => a)) := by
  have hsplitcase : ∀ (p r : String) (al : List (String × String)),
      ':' ∉ p.data → p ≠ "" →
      dealiasAccount (p ++ ":" ++ r) al =
        (match al.lookup p with
         | some v => v ++ ":" ++ r
         | none => p ++ ":" ++ r) := by
    intro p r al hnc hne
    unfold dealiasAccount
    rw [data_append3, idxOfColon_append_colon p.data r.data hnc]
    have hpos : 0 < p.data.length :=
      List.length_pos.mpr (data_ne_nil_of_ne_empty p hne)
    dsimp only
    rw [if_pos hpos, List.take_left, List.drop_left, asString_data]
    cases hl : al.lookup p with
    | some v =>
      rw [colon_cons_asString]
      dsimp only
      rw [← String.append_assoc]
    | none => rfl
  refine ⟨by decide, by decide, by decide, ?_, ?_, ?_⟩
  · intro p r al v hnc hne hl
    rw [hsplitcase p r al hnc hne, hl]
  · intro p r al hnc hne hl
    rw [hsplitcase p r al hnc hne, hl]
  · intro a al hnc
    unfold dealiasAccount
    rw [idxOfColon_none a.data hnc]

/-- Claim C7 witness: the prefix-replacement clause of the amended statement
applied at a concrete prefix, remainder and alias map. -/
theorem dealiasAccount_spec_witness :
    dealiasAccount "Inc:Salary" [("Inc", "Income")] = "Income:Salary" := by
  have h := dealiasAccount_spec.2.2.2.1 "Inc" "Salary" [("Inc", "Income")] "Income"
    (by decide) (by decide) (by decide)
  simpa using h

/-- Claim C8: inserting the three example paths with `makeAccountTree` and
sorting with `sortAccountTree` yields top level `["Assets","Expenses"]` in
that order, `Expenses` having the single child `Food`, `Food` having
children `["Groceries","Restaurants"]` in that order, `Assets` having the
single child `Cash`, and no duplicate siblings at any level. -/
theorem accountTree_example :
    exampleTreeSorted.map Node.account = ["Assets", "Expenses"] ∧
    childAccounts exampleTreeSorted "Expenses" = some ["Food"] ∧
    (((exampleTreeSorted.find? (fun n => n.account == "Expenses")).bind
      (fun n => (n.subRows.getD []).find? (fun m => m.account == "Food"))).map
      (fun m => (m.subRows.getD []).map Node.account))
        = some ["Groceries", "Restaurants"] ∧
    childAccounts exampleTreeSorted "Assets" = some ["Cash"] ∧
    forestNodupB exampleTreeSorted = true := by
  exact ⟨by decide, by decide, by decide, by decide, by decide⟩

/-- Claim C1 witness: the amended statement applied to the concrete transaction
`txExpCash`, whose single missing amount is on the last line. -/
theorem totals_agree_after_fill_witness :
    negLastTotal txExpCashFilled.value.expenselines =
      sumExceptLast txExpCashFilled.value.expenselines :=
  totals_agree_after_fill txExpCash [lnExp30] [] lnCashNone rfl rfl (by decide)
    (by decide) (by decide) (Or.inl rfl) txExpCashFilled fill_eval_txExpCash

end Claims

end LedgerSpec
